import Mathlib

/-!
Verification of the double-array trie (DAT) dictionary engine of
src/src/dictionary/opencc_dictionary_datrie.c.

The C code is shallowly embedded: the trie-item table is a Lean list of
records, wide characters are integers (wchar_t is a 32-bit signed integer on
the target platform), size_t values are natural numbers, and the byte region
backing a dictionary is a list of bytes. Pointer-returning C functions are
modelled as functions returning Option or an explicit sum of outcomes.
-/

/-- Modelled from the spec: the reserved sentinel base value marking a node with
no outgoing transitions (spec section 3). The C header defining DATRIE_UNUSED is
not part of the repository snapshot; only its being a reserved value matters. -/
def DATRIE_UNUSED : Int := -1

/-- Modelled from the spec: the fixed magic header string of known length
(spec sections 4.2 and 6). The C header defining OPENCC_DICHEADER is not part
of the repository snapshot; a representative fixed ASCII byte string is used,
since only its being a fixed string of known length matters. -/
def OPENCC_DICHEADER : List Nat := [79, 80, 69, 78, 67, 67, 68, 65, 84, 82, 73, 69]

/-- One trie node record, fields in the order the spec gives for the file
layout: base, parent, word, each a C int (signed 32-bit). -/
structure DoubleArrayTrieItem where
  base : Int
  parent : Int
  word : Int
deriving DecidableEq

instance : Inhabited DoubleArrayTrieItem := ⟨⟨0, 0, 0⟩⟩

/-- The memory_type enum of the C file. -/
inductive memory_type where
  | MEMORY_TYPE_MMAP
  | MEMORY_TYPE_ALLOCATE
deriving DecidableEq

/-- The datrie_dictionary struct: the two typed views (dat with its item count,
lexicon with its length), the region size and the memory-strategy tag. The
dic_memory pointer itself is represented by the views carved from it. -/
structure datrie_dictionary where
  dat : List DoubleArrayTrieItem
  dat_item_count : Nat
  lexicon : List Int
  lexicon_length : Nat
  dic_size : Nat
  dic_memory_type : memory_type
deriving DecidableEq

/-- Reading dd->dat[i]. An index outside the list (which in C would read
memory beyond the view) yields the zero record. -/
def item_at (dat : List DoubleArrayTrieItem) (i : Nat) : DoubleArrayTrieItem :=
  dat.getD i default

/-- encode_char from the C file: the character code is the character value. -/
def encode_char (ch : Int) : Int := ch

/-- The character word[p]: the input word is the list of its characters before
the terminating 0, so reading at p past the end yields the terminator 0. -/
def wordAt (w : List Int) (p : Nat) : Int := (w.drop p).headD 0

/-- The loop of datrie_match, recursing over the unconsumed suffix of the
word; p counts consumed characters and i is the current node. Each iteration
requires word[p] nonzero, the limit to allow another step (limit == 0 means
unbounded), and the current base not to be the UNUSED sentinel; then the
candidate child j = dat[i].base + encode_char(word[p]) (written out in place
of the C local j) is rejected unless 0 <= j < count and dat[j].parent == i. -/
def datrie_match_go (dat : List DoubleArrayTrieItem) (count : Nat) (limit : Nat) :
    List Int → Nat → Nat → Nat × Nat
  | [], p, i => (p, i)
  | c :: rest, p, i =>
    if c ≠ 0 ∧ (limit = 0 ∨ p < limit) ∧ (item_at dat i).base ≠ DATRIE_UNUSED then
      if (item_at dat i).base + encode_char c < 0 ∨
          (count : Int) ≤ (item_at dat i).base + encode_char c ∨
          (item_at dat ((item_at dat i).base + encode_char c).toNat).parent ≠ (i : Int) then
        (p, i)
      else
        datrie_match_go dat count limit rest (p + 1) ((item_at dat i).base + encode_char c).toNat
    else (p, i)

/-- datrie_match on the two table fields: start at p = 0, i = 0 (root) and
return the pair written to *match_pos and *id. -/
def datrie_match_core (dat : List DoubleArrayTrieItem) (count : Nat)
    (w : List Int) (limit : Nat) : Nat × Nat :=
  datrie_match_go dat count limit w 0 0

/-- datrie_match of the C file, taking the dictionary handle. -/
def datrie_match (dd : datrie_dictionary) (w : List Int) (limit : Nat) : Nat × Nat :=
  datrie_match_core dd.dat dd.dat_item_count w limit

/-- The validity rule of spec section 3: a transition from node i via
character code k is valid iff j = base + k is in range and parent[j] = i. -/
def valid_transition (dat : List DoubleArrayTrieItem) (count : Nat) (i : Nat) (k : Int) : Prop :=
  0 ≤ (item_at dat i).base + k ∧ (item_at dat i).base + k < (count : Int) ∧
    (item_at dat ((item_at dat i).base + k).toNat).parent = (i : Int)

instance (dat : List DoubleArrayTrieItem) (count : Nat) (i : Nat) (k : Int) :
    Decidable (valid_transition dat count i k) :=
  inferInstanceAs (Decidable (_ ∧ _ ∧ _))

/-- The node reached from the root by following t valid transitions along the
word, when every one of those transitions is valid (spec vocabulary: a path
over the first t characters of the input). -/
def consume (dat : List DoubleArrayTrieItem) (count : Nat) (w : List Int) : Nat → Option Nat
  | 0 => some 0
  | t + 1 =>
    match consume dat count w t with
    | none => none
    | some i =>
      if valid_transition dat count i (encode_char (wordAt w t)) then
        some ((item_at dat i).base + encode_char (wordAt w t)).toNat
      else none

/-- The possible reasons the datrie_match loop stops at state (p, i): the
input is exhausted, the limit is reached, the node has no outgoing
transitions, or the next transition is invalid. -/
def match_stop (dat : List DoubleArrayTrieItem) (count limit : Nat)
    (w : List Int) (p i : Nat) : Prop :=
  wordAt w p = 0 ∨ (limit ≠ 0 ∧ p = limit) ∨ (item_at dat i).base = DATRIE_UNUSED ∨
    ¬ valid_transition dat count i (encode_char (wordAt w p))

/-- A four-node example dictionary holding the terminal entries "AB" and
"ABC" with character codes A = 1, B = 2, C = 3; the lexicon stores the two
0-terminated entries at offsets 0 and 3. -/
def dat_ex : List DoubleArrayTrieItem :=
  [⟨0, 0, -1⟩, ⟨0, 0, -1⟩, ⟨0, 1, 0⟩, ⟨-1, 2, 3⟩]

/-- The example handle over dat_ex. -/
def dd_ex : datrie_dictionary :=
  { dat := dat_ex
    dat_item_count := 4
    lexicon := [1, 2, 0, 1, 2, 3, 0]
    lexicon_length := 7
    dic_size := 0
    dic_memory_type := memory_type.MEMORY_TYPE_MMAP }

/-- The while loop of dict_datrie_match_longest together with its iteration
count. The C loop terminates because datrie_match called with the positive
limit pos - 1 returns a position at most pos - 1, so pos strictly decreases;
the loop is therefore computed with pos as explicit fuel, and the theorem
match_longest_loop_eq below shows the definition satisfies exactly the C
loop's recurrence (the fuel never runs out). The first component is the final
(pos, item) pair, the second the number of iterations executed. -/
def match_longest_go (dat : List DoubleArrayTrieItem) (count : Nat) (w : List Int) :
    Nat → Nat → Nat → (Nat × Nat) × Nat
  | 0, pos, item => ((pos, item), 0)
  | fuel + 1, pos, item =>
    if (item_at dat item).word = -1 ∧ 1 < pos then
      ((match_longest_go dat count w fuel (datrie_match_core dat count w (pos - 1)).1
          (datrie_match_core dat count w (pos - 1)).2).1,
       (match_longest_go dat count w fuel (datrie_match_core dat count w (pos - 1)).1
          (datrie_match_core dat count w (pos - 1)).2).2 + 1)
    else ((pos, item), 0)

/-- The final (pos, item) state of the while loop of dict_datrie_match_longest
started at (pos, item). -/
def match_longest_loop (dat : List DoubleArrayTrieItem) (count : Nat) (w : List Int)
    (pos item : Nat) : Nat × Nat :=
  (match_longest_go dat count w pos pos item).1

/-- The number of iterations the while loop of dict_datrie_match_longest
executes from (pos, item). -/
def match_longest_iters (dat : List DoubleArrayTrieItem) (count : Nat) (w : List Int)
    (pos item : Nat) : Nat :=
  (match_longest_go dat count w pos pos item).2

/-- dict_datrie_match_longest: run datrie_match with limit length, shrink the
window while the node is non-terminal and pos > 1, and return NULL (none) when
pos is 0 or the node is non-terminal, else the word offset of the terminal
node (the C code returns the pointer lexicon + word). -/
def dict_datrie_match_longest (dd : datrie_dictionary) (w : List Int) (length : Nat) :
    Option Int :=
  if (match_longest_loop dd.dat dd.dat_item_count w (datrie_match dd w length).1
        (datrie_match dd w length).2).1 = 0 ∨
      (item_at dd.dat (match_longest_loop dd.dat dd.dat_item_count w
        (datrie_match dd w length).1 (datrie_match dd w length).2).2).word = -1 then
    none
  else
    some ((item_at dd.dat (match_longest_loop dd.dat dd.dat_item_count w
      (datrie_match dd w length).1 (datrie_match dd w length).2).2).word)

/-- The character sequence a returned pointer lexicon + off denotes: the
characters from offset off up to the terminating 0 (spec section 4.4). -/
def lexicon_entry (lex : List Int) (off : Int) : List Int :=
  (lex.drop off.toNat).takeWhile (fun c => c != 0)

/-- The loop of dict_datrie_get_all_match_lengths over the unconsumed suffix
of the word: the same walk as datrie_match with no limit, recording p + 1
after each successful step whose new node is terminal. The caller-provided
output buffer is modelled as the returned list (rscnt is its length). -/
def all_match_go (dat : List DoubleArrayTrieItem) (count : Nat) :
    List Int → Nat → Nat → List Nat
  | [], _, _ => []
  | c :: rest, p, i =>
    if c ≠ 0 ∧ (item_at dat i).base ≠ DATRIE_UNUSED then
      if (item_at dat i).base + encode_char c < 0 ∨
          (count : Int) ≤ (item_at dat i).base + encode_char c ∨
          (item_at dat ((item_at dat i).base + encode_char c).toNat).parent ≠ (i : Int) then
        []
      else
        (if (item_at dat ((item_at dat i).base + encode_char c).toNat).word ≠ -1 then
          [p + 1] else []) ++
        all_match_go dat count rest (p + 1) ((item_at dat i).base + encode_char c).toNat
    else []

/-- dict_datrie_get_all_match_lengths: the recorded match lengths in order;
the C return value rscnt is the length of this list. -/
def dict_datrie_get_all_match_lengths (dd : datrie_dictionary) (w : List Int) : List Nat :=
  all_match_go dd.dat dd.dat_item_count w 0 0

/-- Reads one byte of the dictionary region; the region is a list of bytes and
a read beyond it (which in C touches unrelated memory) yields 0. -/
def read_byte (m : List Nat) (off : Nat) : Nat := m.getD off 0 % 256

/-- Reads a platform-native size_t (64-bit little-endian on the target
platform) at a byte offset. -/
def read_size_t (m : List Nat) (off : Nat) : Nat :=
  read_byte m off + 256 * (read_byte m (off + 1) + 256 * (read_byte m (off + 2) +
    256 * (read_byte m (off + 3) + 256 * (read_byte m (off + 4) +
    256 * (read_byte m (off + 5) + 256 * (read_byte m (off + 6) +
    256 * read_byte m (off + 7)))))))

/-- Interpret a 32-bit value as a signed C int. -/
def as_int32 (n : Nat) : Int :=
  if n % 2 ^ 32 < 2 ^ 31 then ((n % 2 ^ 32 : Nat) : Int) else ((n % 2 ^ 32 : Nat) : Int) - 2 ^ 32

/-- Reads a 32-bit signed integer (a C int, and also a wchar_t lexicon
character on the target platform) at a byte offset, little-endian. -/
def read_int32 (m : List Nat) (off : Nat) : Int :=
  as_int32 (read_byte m off + 256 * (read_byte m (off + 1) + 256 * (read_byte m (off + 2) +
    256 * read_byte m (off + 3))))

/-- Reads one DoubleArrayTrieItem record (base, parent, word) at a byte
offset. -/
def read_item (m : List Nat) (off : Nat) : DoubleArrayTrieItem :=
  ⟨read_int32 m off, read_int32 m (off + 4), read_int32 m (off + 8)⟩

/-- load_dict after the memory region m has been acquired: compare the first
header_len bytes with the magic header; on match read the lexicon length and
the trie-item count (two size_t fields directly after the header) and carve
the lexicon view and, right after lexicon_length wide characters, the
trie-item view out of the region. The declared counts alone determine the
views; the region size is never checked against them. -/
def load_dict (m : List Nat) (mt : memory_type) : Option datrie_dictionary :=
  if m.take OPENCC_DICHEADER.length = OPENCC_DICHEADER then
    some
      { dat := (List.range (read_size_t m (OPENCC_DICHEADER.length + 8))).map
          (fun t => read_item m (OPENCC_DICHEADER.length + 16 +
            4 * read_size_t m OPENCC_DICHEADER.length + 12 * t))
        dat_item_count := read_size_t m (OPENCC_DICHEADER.length + 8)
        lexicon := (List.range (read_size_t m OPENCC_DICHEADER.length)).map
          (fun t => read_int32 m (OPENCC_DICHEADER.length + 16 + 4 * t))
        lexicon_length := read_size_t m OPENCC_DICHEADER.length
        dic_size := m.length
        dic_memory_type := mt }
  else none

/-- The value of the opaque dict_ptr an open returns: either the address of a
live handle or a plain integer cast to the pointer type (the C code returns
(dict_ptr)(-1) on failure; the null pointer is the integer 0). -/
inductive dict_ptr_value where
  | addr (dd : datrie_dictionary)
  | intcast (v : Int)
deriving DecidableEq

/-- The null pointer as a dict_ptr value. -/
def NULL_dict_ptr : dict_ptr_value := dict_ptr_value.intcast 0

/-- dict_datrie_open. The file argument is the file's byte content, or none
when the file cannot be opened (fopen returns NULL). The booleans are oracles
for the two memory strategies succeeding: load_mmap maps the whole file and
load_allocate reads the whole file from offset 0 into a buffer of the file's
size, so a successful acquisition yields the file's bytes either way. When
fopen fails the C code passes the NULL FILE pointer straight to
fileno/fseek inside load_dict, which is undefined behavior, modelled as the
outcome none. -/
def dict_datrie_open (file : Option (List Nat)) (mmap_ok alloc_ok : Bool) :
    Option dict_ptr_value :=
  match file with
  | none => none
  | some m =>
    if mmap_ok then
      match load_dict m memory_type.MEMORY_TYPE_MMAP with
      | some dd => some (dict_ptr_value.addr dd)
      | none => some (dict_ptr_value.intcast (-1))
    else if alloc_ok then
      match load_dict m memory_type.MEMORY_TYPE_ALLOCATE with
      | some dd => some (dict_ptr_value.addr dd)
      | none => some (dict_ptr_value.intcast (-1))
    else some (dict_ptr_value.intcast (-1))

/-- unload_dict's return value: 0 when the region is null or was heap
allocated (free cannot fail), otherwise munmap's result, with munmap_ok an
oracle for munmap succeeding. -/
def unload_dict (region_null : Bool) (mt : memory_type) (munmap_ok : Bool) : Int :=
  if region_null then 0
  else
    match mt with
    | memory_type.MEMORY_TYPE_MMAP => if munmap_ok then 0 else -1
    | memory_type.MEMORY_TYPE_ALLOCATE => 0

/-- What dict_datrie_close does: its return value and whether the handle's
own storage was freed. -/
structure close_effect where
  ret : Int
  handle_freed : Bool
deriving DecidableEq

/-- dict_datrie_close: unload the region, free the handle storage on both
branches, and report unload failure as -1. -/
def dict_datrie_close (region_null : Bool) (mt : memory_type) (munmap_ok : Bool) :
    close_effect :=
  if unload_dict region_null mt munmap_ok = -1 then ⟨-1, true⟩ else ⟨0, true⟩

/-- A region for exercising the loader: the magic header followed by the two
size fields declaring lexicon length 5 and item count 2, with the region
ending right there, so both declared views lie wholly outside the region. -/
def m_ex : List Nat :=
  OPENCC_DICHEADER ++ [5, 0, 0, 0, 0, 0, 0, 0] ++ [2, 0, 0, 0, 0, 0, 0, 0]

theorem datrie_match_go_fst_le (dat : List DoubleArrayTrieItem) (count limit : Nat)
    (hl : limit ≠ 0) :
    ∀ (rest : List Int) (p i : Nat), p ≤ limit →
      (datrie_match_go dat count limit rest p i).1 ≤ limit := by
  intro rest
  induction rest with
  | nil => intro p i hp; simpa [datrie_match_go] using hp
  | cons c rest ih =>
    intro p i hp
    simp only [datrie_match_go]
    split
    next h =>
      split
      next => simpa using hp
      next => exact ih (p + 1) _ (h.2.1.resolve_left hl)
    next => simpa using hp

theorem datrie_match_go_fst_ge (dat : List DoubleArrayTrieItem) (count limit : Nat) :
    ∀ (rest : List Int) (p i : Nat), p ≤ (datrie_match_go dat count limit rest p i).1 := by
  intro rest
  induction rest with
  | nil => intro p i; simp [datrie_match_go]
  | cons c rest ih =>
    intro p i
    simp only [datrie_match_go]
    split
    next =>
      split
      next => simp
      next => exact le_trans (Nat.le_succ p) (ih (p + 1) _)
    next => simp

theorem datrie_match_core_fst_le (dat : List DoubleArrayTrieItem) (count : Nat)
    (w : List Int) (limit : Nat) (hl : limit ≠ 0) :
    (datrie_match_core dat count w limit).1 ≤ limit :=
  datrie_match_go_fst_le dat count limit hl w 0 0 (Nat.zero_le _)

theorem datrie_match_go_spec (dat : List DoubleArrayTrieItem) (count limit : Nat)
    (w : List Int) :
    ∀ (rest : List Int) (p0 i0 p i : Nat),
      rest = w.drop p0 →
      consume dat count w p0 = some i0 →
      (∀ t, t < p0 → wordAt w t ≠ 0) →
      (limit ≠ 0 → p0 ≤ limit) →
      datrie_match_go dat count limit rest p0 i0 = (p, i) →
      consume dat count w p = some i ∧
      (∀ t, t < p → wordAt w t ≠ 0) ∧
      (limit ≠ 0 → p ≤ limit) ∧
      match_stop dat count limit w p i := by
  intro rest
  induction rest with
  | nil =>
    intro p0 i0 p i hrest hcons hchars hlim hgo
    simp only [datrie_match_go] at hgo
    injection hgo with h1 h2
    subst h1; subst h2
    refine ⟨hcons, hchars, hlim, Or.inl ?_⟩
    unfold wordAt
    rw [← hrest]
    rfl
  | cons c rest ih =>
    intro p0 i0 p i hrest hcons hchars hlim hgo
    have hw : wordAt w p0 = c := by unfold wordAt; rw [← hrest]; rfl
    have hdrop : rest = w.drop (p0 + 1) := by
      rw [← List.tail_drop, ← hrest]
      rfl
    simp only [datrie_match_go] at hgo
    by_cases hg : c ≠ 0 ∧ (limit = 0 ∨ p0 < limit) ∧ (item_at dat i0).base ≠ DATRIE_UNUSED
    · rw [if_pos hg] at hgo
      by_cases hv : valid_transition dat count i0 (encode_char c)
      · have hcond : ¬((item_at dat i0).base + encode_char c < 0 ∨
            (count : Int) ≤ (item_at dat i0).base + encode_char c ∨
            (item_at dat ((item_at dat i0).base + encode_char c).toNat).parent ≠ (i0 : Int)) := by
          obtain ⟨h1, h2, h3⟩ := hv
          push_neg
          exact ⟨h1, h2, h3⟩
        rw [if_neg hcond] at hgo
        have hcons1 : consume dat count w (p0 + 1)
            = some ((item_at dat i0).base + encode_char c).toNat := by
          simp only [consume, hcons, hw]
          rw [if_pos hv]
        refine ih (p0 + 1) _ p i hdrop hcons1 ?_ ?_ hgo
        · intro t ht
          rcases Nat.lt_succ_iff_lt_or_eq.mp ht with ht | ht
          · exact hchars t ht
          · subst ht; rw [hw]; exact hg.1
        · intro hl0
          exact Nat.succ_le_of_lt (hg.2.1.resolve_left hl0)
      · have hcond : (item_at dat i0).base + encode_char c < 0 ∨
            (count : Int) ≤ (item_at dat i0).base + encode_char c ∨
            (item_at dat ((item_at dat i0).base + encode_char c).toNat).parent ≠ (i0 : Int) := by
          by_contra hc
          push_neg at hc
          exact hv ⟨hc.1, hc.2.1, hc.2.2⟩
        rw [if_pos hcond] at hgo
        injection hgo with h1 h2
        subst h1; subst h2
        refine ⟨hcons, hchars, hlim, Or.inr (Or.inr (Or.inr ?_))⟩
        rw [hw]; exact hv
    · rw [if_neg hg] at hgo
      injection hgo with h1 h2
      subst h1; subst h2
      refine ⟨hcons, hchars, hlim, ?_⟩
      by_cases hc : c = 0
      · exact Or.inl (by rw [hw, hc])
      · by_cases hl2 : limit = 0 ∨ p0 < limit
        · by_cases hb : (item_at dat i0).base = DATRIE_UNUSED
          · exact Or.inr (Or.inr (Or.inl hb))
          · exact absurd ⟨hc, hl2, hb⟩ hg
        · push_neg at hl2
          exact Or.inr (Or.inl ⟨hl2.1, Nat.le_antisymm (hlim hl2.1) hl2.2⟩)

theorem match_longest_go_fuel_stable (dat : List DoubleArrayTrieItem) (count : Nat)
    (w : List Int) :
    ∀ (f1 f2 pos item : Nat), pos ≤ f1 → pos ≤ f2 →
      match_longest_go dat count w f1 pos item = match_longest_go dat count w f2 pos item := by
  intro f1
  induction f1 with
  | zero =>
    intro f2 pos item h1 h2
    have hpos : pos = 0 := Nat.le_zero.mp h1
    subst hpos
    cases f2 with
    | zero => rfl
    | succ f2 =>
      simp only [match_longest_go]
      rw [if_neg (fun h => absurd h.2 (by omega))]
  | succ f1 ih =>
    intro f2 pos item h1 h2
    by_cases hg : (item_at dat item).word = -1 ∧ 1 < pos
    · cases f2 with
      | zero => omega
      | succ f2 =>
        have hle : (datrie_match_core dat count w (pos - 1)).1 ≤ pos - 1 :=
          datrie_match_core_fst_le dat count w (pos - 1) (by omega)
        simp only [match_longest_go]
        rw [if_pos hg, if_pos hg,
          ih f2 (datrie_match_core dat count w (pos - 1)).1
            (datrie_match_core dat count w (pos - 1)).2 (by omega) (by omega)]
    · cases f2 with
      | zero =>
        have hpos : pos = 0 := Nat.le_zero.mp h2
        subst hpos
        simp only [match_longest_go]
        rw [if_neg hg]
      | succ f2 =>
        simp only [match_longest_go]
        rw [if_neg hg, if_neg hg]

theorem match_longest_go_eq (dat : List DoubleArrayTrieItem) (count : Nat) (w : List Int)
    (pos item : Nat) :
    match_longest_go dat count w pos pos item =
      if (item_at dat item).word = -1 ∧ 1 < pos then
        ((match_longest_go dat count w (datrie_match_core dat count w (pos - 1)).1
            (datrie_match_core dat count w (pos - 1)).1
            (datrie_match_core dat count w (pos - 1)).2).1,
         (match_longest_go dat count w (datrie_match_core dat count w (pos - 1)).1
            (datrie_match_core dat count w (pos - 1)).1
            (datrie_match_core dat count w (pos - 1)).2).2 + 1)
      else ((pos, item), 0) := by
  by_cases hg : (item_at dat item).word = -1 ∧ 1 < pos
  · rw [if_pos hg]
    cases pos with
    | zero => omega
    | succ pos =>
      have hle : (datrie_match_core dat count w (pos + 1 - 1)).1 ≤ pos + 1 - 1 :=
        datrie_match_core_fst_le dat count w (pos + 1 - 1) (by omega)
      simp only [match_longest_go]
      rw [if_pos hg,
        match_longest_go_fuel_stable dat count w pos (datrie_match_core dat count w (pos + 1 - 1)).1
          (datrie_match_core dat count w (pos + 1 - 1)).1
          (datrie_match_core dat count w (pos + 1 - 1)).2 (by omega) le_rfl]
  · rw [if_neg hg]
    cases pos with
    | zero => rfl
    | succ pos =>
      simp only [match_longest_go]
      rw [if_neg hg]

/-- The while loop of dict_datrie_match_longest satisfies exactly the C
loop's recurrence: retry with limit pos - 1 while the node is non-terminal
and pos > 1, else stop. -/
theorem match_longest_loop_eq (dat : List DoubleArrayTrieItem) (count : Nat) (w : List Int)
    (pos item : Nat) :
    match_longest_loop dat count w pos item =
      if (item_at dat item).word = -1 ∧ 1 < pos then
        match_longest_loop dat count w (datrie_match_core dat count w (pos - 1)).1
          (datrie_match_core dat count w (pos - 1)).2
      else (pos, item) := by
  unfold match_longest_loop
  rw [match_longest_go_eq]
  by_cases hg : (item_at dat item).word = -1 ∧ 1 < pos
  · rw [if_pos hg, if_pos hg]
  · rw [if_neg hg, if_neg hg]

theorem match_longest_iters_eq (dat : List DoubleArrayTrieItem) (count : Nat) (w : List Int)
    (pos item : Nat) :
    match_longest_iters dat count w pos item =
      if (item_at dat item).word = -1 ∧ 1 < pos then
        match_longest_iters dat count w (datrie_match_core dat count w (pos - 1)).1
          (datrie_match_core dat count w (pos - 1)).2 + 1
      else 0 := by
  unfold match_longest_iters
  rw [match_longest_go_eq]
  by_cases hg : (item_at dat item).word = -1 ∧ 1 < pos
  · rw [if_pos hg, if_pos hg]
  · rw [if_neg hg, if_neg hg]

theorem match_longest_iters_le (dat : List DoubleArrayTrieItem) (count : Nat) (w : List Int) :
    ∀ (pos item : Nat), match_longest_iters dat count w pos item ≤ pos := by
  intro pos
  induction pos using Nat.strong_induction_on with
  | _ pos ih =>
    intro item
    rw [match_longest_iters_eq]
    by_cases hg : (item_at dat item).word = -1 ∧ 1 < pos
    · rw [if_pos hg]
      have hle : (datrie_match_core dat count w (pos - 1)).1 ≤ pos - 1 :=
        datrie_match_core_fst_le dat count w (pos - 1) (by omega)
      have := ih (datrie_match_core dat count w (pos - 1)).1 (by omega)
        (datrie_match_core dat count w (pos - 1)).2
      omega
    · rw [if_neg hg]
      exact Nat.zero_le _

theorem match_longest_loop_reached (dat : List DoubleArrayTrieItem) (count : Nat)
    (w : List Int) :
    ∀ (pos item : Nat), (∃ L, datrie_match_core dat count w L = (pos, item)) →
      ∃ L, datrie_match_core dat count w L
        = match_longest_loop dat count w pos item := by
  intro pos
  induction pos using Nat.strong_induction_on with
  | _ pos ih =>
    intro item hreach
    rw [match_longest_loop_eq]
    by_cases hg : (item_at dat item).word = -1 ∧ 1 < pos
    · rw [if_pos hg]
      have hle : (datrie_match_core dat count w (pos - 1)).1 ≤ pos - 1 :=
        datrie_match_core_fst_le dat count w (pos - 1) (by omega)
      exact ih (datrie_match_core dat count w (pos - 1)).1 (by omega)
        (datrie_match_core dat count w (pos - 1)).2 ⟨pos - 1, rfl⟩
    · rw [if_neg hg]
      exact hreach

theorem all_match_go_mem_lt (dat : List DoubleArrayTrieItem) (count : Nat) :
    ∀ (rest : List Int) (p i t : Nat), t ∈ all_match_go dat count rest p i → p < t := by
  intro rest
  induction rest with
  | nil => intro p i t ht; simp [all_match_go] at ht
  | cons c rest ih =>
    intro p i t ht
    simp only [all_match_go] at ht
    by_cases hg : c ≠ 0 ∧ (item_at dat i).base ≠ DATRIE_UNUSED
    · rw [if_pos hg] at ht
      by_cases hcond : (item_at dat i).base + encode_char c < 0 ∨
          (count : Int) ≤ (item_at dat i).base + encode_char c ∨
          (item_at dat ((item_at dat i).base + encode_char c).toNat).parent ≠ (i : Int)
      · rw [if_pos hcond] at ht; simp at ht
      · rw [if_neg hcond] at ht
        rcases List.mem_append.mp ht with ht | ht
        · by_cases hterm : (item_at dat ((item_at dat i).base + encode_char c).toNat).word ≠ -1
          · rw [if_pos hterm] at ht
            have : t = p + 1 := List.mem_singleton.mp ht
            omega
          · rw [if_neg hterm] at ht; simp at ht
        · have := ih (p + 1) _ t ht
          omega
    · rw [if_neg hg] at ht; simp at ht

theorem all_match_go_chain (dat : List DoubleArrayTrieItem) (count : Nat) :
    ∀ (rest : List Int) (p i : Nat),
      List.Chain' (fun a b => a < b) (all_match_go dat count rest p i) := by
  intro rest
  induction rest with
  | nil => intro p i; simp [all_match_go]
  | cons c rest ih =>
    intro p i
    simp only [all_match_go]
    split
    next =>
      split
      next => simp
      next =>
        split
        next =>
          rw [List.singleton_append]
          refine List.chain'_cons'.mpr ⟨?_, ih (p + 1) _⟩
          intro y hy
          exact all_match_go_mem_lt dat count rest (p + 1) _ y (List.mem_of_mem_head? hy)
        next => simp only [List.nil_append]; exact ih (p + 1) _
    next => simp

theorem all_match_go_mem_iff (dat : List DoubleArrayTrieItem) (count : Nat) (w : List Int) :
    ∀ (rest : List Int) (p0 i0 : Nat),
      rest = w.drop p0 →
      consume dat count w p0 = some i0 →
      ∀ t, (t ∈ all_match_go dat count rest p0 i0 ↔
        (p0 < t ∧ t ≤ (datrie_match_go dat count 0 rest p0 i0).1 ∧
         ∃ n, consume dat count w t = some n ∧ (item_at dat n).word ≠ -1)) := by
  intro rest
  induction rest with
  | nil =>
    intro p0 i0 hrest hcons t
    simp only [all_match_go, datrie_match_go]
    simp only [List.not_mem_nil, false_iff]
    intro hc
    omega
  | cons c rest ih =>
    intro p0 i0 hrest hcons t
    have hw : wordAt w p0 = c := by unfold wordAt; rw [← hrest]; rfl
    have hdrop : rest = w.drop (p0 + 1) := by
      rw [← List.tail_drop, ← hrest]
      rfl
    simp only [all_match_go, datrie_match_go]
    by_cases hg : c ≠ 0 ∧ (item_at dat i0).base ≠ DATRIE_UNUSED
    · have hg0 : c ≠ 0 ∧ (True ∨ p0 < 0) ∧ (item_at dat i0).base ≠ DATRIE_UNUSED :=
        ⟨hg.1, Or.inl trivial, hg.2⟩
      rw [if_pos hg, if_pos hg0]
      by_cases hcond : (item_at dat i0).base + encode_char c < 0 ∨
          (count : Int) ≤ (item_at dat i0).base + encode_char c ∨
          (item_at dat ((item_at dat i0).base + encode_char c).toNat).parent ≠ (i0 : Int)
      · rw [if_pos hcond, if_pos hcond]
        simp only [List.not_mem_nil, false_iff]
        intro hc
        omega
      · rw [if_neg hcond, if_neg hcond]
        have hv : valid_transition dat count i0 (encode_char c) := by
          push_neg at hcond
          exact ⟨hcond.1, hcond.2.1, hcond.2.2⟩
        have hcons1 : consume dat count w (p0 + 1)
            = some ((item_at dat i0).base + encode_char c).toNat := by
          simp only [consume, hcons, hw]
          rw [if_pos hv]
        have hIH := ih (p0 + 1) _ hdrop hcons1 t
        have hge : p0 + 1 ≤ (datrie_match_go dat count 0 rest (p0 + 1)
            ((item_at dat i0).base + encode_char c).toNat).1 :=
          datrie_match_go_fst_ge dat count 0 rest (p0 + 1) _
        by_cases ht : t = p0 + 1
        · subst ht
          simp only [List.mem_append, hIH]
          by_cases hterm : (item_at dat ((item_at dat i0).base + encode_char c).toNat).word ≠ -1
          · rw [if_pos hterm]
            simp only [List.mem_singleton]
            constructor
            · intro _
              exact ⟨by omega, hge, _, hcons1, hterm⟩
            · intro _
              exact Or.inl trivial
          · rw [if_neg hterm]
            simp only [List.not_mem_nil, false_or]
            constructor
            · intro hc
              omega
            · rintro ⟨-, -, n, hn, hnterm⟩
              rw [hcons1] at hn
              injection hn with hn
              subst hn
              exact absurd hnterm hterm
        · simp only [List.mem_append, hIH]
          constructor
          · rintro (hmem | ⟨h1, h2, h3⟩)
            · exfalso
              by_cases hterm : (item_at dat ((item_at dat i0).base + encode_char c).toNat).word ≠ -1
              · rw [if_pos hterm] at hmem
                exact ht (List.mem_singleton.mp hmem)
              · rw [if_neg hterm] at hmem
                simp at hmem
            · exact ⟨by omega, h2, h3⟩
          · rintro ⟨h1, h2, h3⟩
            exact Or.inr ⟨by omega, h2, h3⟩
    · rw [if_neg hg]
      have hg0 : ¬(c ≠ 0 ∧ (True ∨ p0 < 0) ∧ (item_at dat i0).base ≠ DATRIE_UNUSED) := by
        intro hc
        exact hg ⟨hc.1, hc.2.2⟩
      rw [if_neg hg0]
      simp only [List.not_mem_nil, false_iff]
      intro hc
      omega

theorem datrie_match_core_spec (dat : List DoubleArrayTrieItem) (count : Nat)
    (w : List Int) (limit p i : Nat)
    (h : datrie_match_core dat count w limit = (p, i)) :
    consume dat count w p = some i ∧
    (∀ t, t < p → wordAt w t ≠ 0) ∧
    (limit ≠ 0 → p ≤ limit) ∧
    match_stop dat count limit w p i :=
  datrie_match_go_spec dat count limit w w 0 0 p i (List.drop_zero w).symm rfl
    (by intro t ht; omega) (fun _ => Nat.zero_le _) h

/-- C1: for every handle, node index i and character code k considered by the
trie traversal (the walk is at state (p, i), the input supplies the character,
the limit allows a step and the node has outgoing transitions), the traversal
follows the transition to j = items[i].base + k iff 0 <= j < item_count and
items[j].parent = i; an out-of-range j, or an in-range j with a different
parent field, is rejected and the walk stops at (p, i). -/
theorem C1_transition_validity (dat : List DoubleArrayTrieItem) (count limit : Nat)
    (c : Int) (rest : List Int) (p i : Nat)
    (hc : c ≠ 0) (hl : limit = 0 ∨ p < limit)
    (hb : (item_at dat i).base ≠ DATRIE_UNUSED) :
    (valid_transition dat count i (encode_char c) →
      datrie_match_go dat count limit (c :: rest) p i
        = datrie_match_go dat count limit rest (p + 1)
            ((item_at dat i).base + encode_char c).toNat) ∧
    (¬ valid_transition dat count i (encode_char c) →
      datrie_match_go dat count limit (c :: rest) p i = (p, i)) := by
  constructor
  · intro hv
    simp only [datrie_match_go]
    rw [if_pos ⟨hc, hl, hb⟩, if_neg ?_]
    obtain ⟨h1, h2, h3⟩ := hv
    push_neg
    exact ⟨h1, h2, h3⟩
  · intro hv
    simp only [datrie_match_go]
    rw [if_pos ⟨hc, hl, hb⟩, if_pos ?_]
    by_contra hcond
    push_neg at hcond
    exact hv ⟨hcond.1, hcond.2.1, hcond.2.2⟩

theorem C1_witness :
    datrie_match_go dat_ex 4 4 [1, 2, 3, 4] 0 0
      = datrie_match_go dat_ex 4 4 [2, 3, 4] 1 ((item_at dat_ex 0).base + encode_char 1).toNat :=
  (C1_transition_validity dat_ex 4 4 1 [2, 3, 4] 0 0 (by decide) (by decide) (by decide)).1
    (by decide)

/-- C3: the bounded step match advances exactly while the input has a
character at p, the limit allows it (limit = 0 meaning unbounded, or
p < limit) and the node's base is not UNUSED; every consumed character
followed a valid transition (the reached node is the valid-transition walk of
the consumed prefix), an invalid transition stops the walk without advancing,
and the returned pair is the count of consumed characters and the node
reached, which stopped for one of the stated reasons. -/
theorem C3_bounded_step_match (dd : datrie_dictionary) (w : List Int) (limit p i : Nat)
    (h : datrie_match dd w limit = (p, i)) :
    consume dd.dat dd.dat_item_count w p = some i ∧
    (∀ t, t < p → wordAt w t ≠ 0) ∧
    (limit ≠ 0 → p ≤ limit) ∧
    match_stop dd.dat dd.dat_item_count limit w p i :=
  datrie_match_core_spec dd.dat dd.dat_item_count w limit p i h

theorem C3_witness :
    consume dd_ex.dat dd_ex.dat_item_count [1, 2, 3, 4] 3 = some 3 ∧
    match_stop dd_ex.dat dd_ex.dat_item_count 4 [1, 2, 3, 4] 3 3 :=
  ⟨(C3_bounded_step_match dd_ex [1, 2, 3, 4] 4 3 3 (by decide)).1,
   (C3_bounded_step_match dd_ex [1, 2, 3, 4] 4 3 3 (by decide)).2.2.2⟩

/-- C2: longest match runs the bounded step match with limit = length,
shrinks the window while the node is non-terminal and pos > 1, and returns
none (the normal negative result) when it ends with pos = 0 or a non-terminal
node; when it returns an entry, the entry is the word offset of a terminal
node genuinely reached from the root over a nonempty prefix of the input. On
the example dictionary holding the terminal entries "AB" (codes 1 2) and
"ABC" (codes 1 2 3), querying "ABCD" yields the entry "ABC", querying "ABX"
yields "AB", and a query with no path from the root yields none. -/
theorem C2_match_longest :
    (∀ (dd : datrie_dictionary) (w : List Int) (len : Nat) (off : Int),
      dict_datrie_match_longest dd w len = some off →
      ∃ p n, 0 < p ∧ consume dd.dat dd.dat_item_count w p = some n ∧
        (item_at dd.dat n).word ≠ -1 ∧ off = (item_at dd.dat n).word) ∧
    (dict_datrie_match_longest dd_ex [1, 2, 3, 4] 4).map (lexicon_entry dd_ex.lexicon)
      = some [1, 2, 3] ∧
    (dict_datrie_match_longest dd_ex [1, 2, 24] 3).map (lexicon_entry dd_ex.lexicon)
      = some [1, 2] ∧
    dict_datrie_match_longest dd_ex [24] 1 = none := by
  refine ⟨?_, by decide, by decide, by decide⟩
  intro dd w len off h
  unfold dict_datrie_match_longest at h
  by_cases hif : (match_longest_loop dd.dat dd.dat_item_count w (datrie_match dd w len).1
        (datrie_match dd w len).2).1 = 0 ∨
      (item_at dd.dat (match_longest_loop dd.dat dd.dat_item_count w
        (datrie_match dd w len).1 (datrie_match dd w len).2).2).word = -1
  · rw [if_pos hif] at h
    exact absurd h (by simp)
  · rw [if_neg hif] at h
    push_neg at hif
    injection h with h
    obtain ⟨L, hL⟩ := match_longest_loop_reached dd.dat dd.dat_item_count w
      (datrie_match dd w len).1 (datrie_match dd w len).2 ⟨len, rfl⟩
    have hspec := datrie_match_core_spec dd.dat dd.dat_item_count w L
      (match_longest_loop dd.dat dd.dat_item_count w (datrie_match dd w len).1
        (datrie_match dd w len).2).1
      (match_longest_loop dd.dat dd.dat_item_count w (datrie_match dd w len).1
        (datrie_match dd w len).2).2 hL
    exact ⟨_, _, Nat.pos_of_ne_zero hif.1, hspec.1, hif.2, h.symm⟩

theorem C2_witness :
    ∃ p n, 0 < p ∧ consume dd_ex.dat dd_ex.dat_item_count [1, 2, 3, 4] p = some n ∧
      (item_at dd_ex.dat n).word ≠ -1 ∧ (3 : Int) = (item_at dd_ex.dat n).word :=
  C2_match_longest.1 dd_ex [1, 2, 3, 4] 4 3 (by decide)

/-- C4: all-match-length enumeration is a single unlimited forward walk from
the root: its output is strictly increasing, and a length t is recorded
exactly when t is positive, at most the position the unlimited walk reaches,
and the valid-transition walk of the first t characters reaches a terminal
node. The C return value is the length of the recorded list. -/
theorem C4_all_match_lengths (dd : datrie_dictionary) (w : List Int) :
    List.Chain' (fun a b => a < b) (dict_datrie_get_all_match_lengths dd w) ∧
    (∀ t, t ∈ dict_datrie_get_all_match_lengths dd w ↔
      (0 < t ∧ t ≤ (datrie_match dd w 0).1 ∧
       ∃ n, consume dd.dat dd.dat_item_count w t = some n ∧ (item_at dd.dat n).word ≠ -1)) := by
  constructor
  · exact all_match_go_chain dd.dat dd.dat_item_count w 0 0
  · intro t
    exact all_match_go_mem_iff dd.dat dd.dat_item_count w w 0 0 (List.drop_zero w).symm rfl t

/-- C9: the backtracking loop of longest match terminates: a bounded step
match with positive limit L returns a position at most L, hence the retry
with limit = pos - 1 (which the pos > 1 guard keeps positive, never the
unbounded 0) returns a strictly smaller position, and the loop executes at
most as many iterations as the initial matched position. -/
theorem C9_backtracking_terminates :
    (∀ (dat : List DoubleArrayTrieItem) (count : Nat) (w : List Int) (L : Nat), L ≠ 0 →
      (datrie_match_core dat count w L).1 ≤ L) ∧
    (∀ (dat : List DoubleArrayTrieItem) (count : Nat) (w : List Int) (pos : Nat), 1 < pos →
      (datrie_match_core dat count w (pos - 1)).1 < pos) ∧
    (∀ (dat : List DoubleArrayTrieItem) (count : Nat) (w : List Int) (pos item : Nat),
      match_longest_iters dat count w pos item ≤ pos) := by
  refine ⟨fun dat count w L hL => datrie_match_core_fst_le dat count w L hL, ?_, ?_⟩
  · intro dat count w pos hpos
    have := datrie_match_core_fst_le dat count w (pos - 1) (by omega)
    omega
  · intro dat count w pos item
    exact match_longest_iters_le dat count w pos item

theorem C9_witness :
    (datrie_match_core dat_ex 4 [1, 2, 3, 4] 2).1 ≤ 2 ∧
    (datrie_match_core dat_ex 4 [1, 2, 3, 4] 2).1 < 3 ∧
    match_longest_iters dat_ex 4 [1, 2, 3, 4] 5 1 ≤ 5 :=
  ⟨C9_backtracking_terminates.1 dat_ex 4 [1, 2, 3, 4] 2 (by decide),
   C9_backtracking_terminates.2.1 dat_ex 4 [1, 2, 3, 4] 3 (by decide),
   C9_backtracking_terminates.2.2 dat_ex 4 [1, 2, 3, 4] 5 1⟩

/-- C5: with the file present, open returns the failure sentinel exactly when
the magic header does not match or both memory strategies fail; but with the
file missing, the C code never checks the NULL result of fopen and passes it
to fileno and fseek inside load_dict, which is undefined behavior (modelled
as the outcome none), not an error return as the claim states. -/
theorem C5_open_failure_modes :
    dict_datrie_open none true true = none ∧
    (∀ (m : List Nat) (mo ao : Bool),
      dict_datrie_open (some m) mo ao = some (dict_ptr_value.intcast (-1)) ↔
        (¬ m.take OPENCC_DICHEADER.length = OPENCC_DICHEADER ∨ (mo = false ∧ ao = false))) := by
  refine ⟨rfl, ?_⟩
  intro m mo ao
  cases mo <;> cases ao <;>
    by_cases h : m.take OPENCC_DICHEADER.length = OPENCC_DICHEADER <;>
    simp [dict_datrie_open, load_dict, h]

set_option maxHeartbeats 1000000 in
/-- C6: the parser fails exactly when the region does not begin with the
magic header; on success the lexicon length and trie-item count are the two
size fields directly after the header, and the two views are derived purely
from those declared counts (the lexicon right after the size fields, the
trie-item table right after lexicon_length characters), with no check of the
declared spans against the region size. -/
theorem C6_parse_format (m : List Nat) (mt : memory_type) :
    ((load_dict m mt).isSome ↔ m.take OPENCC_DICHEADER.length = OPENCC_DICHEADER) ∧
    (∀ dd, load_dict m mt = some dd →
      dd.lexicon_length = read_size_t m OPENCC_DICHEADER.length ∧
      dd.dat_item_count = read_size_t m (OPENCC_DICHEADER.length + 8) ∧
      dd.lexicon = (List.range dd.lexicon_length).map
        (fun t => read_int32 m (OPENCC_DICHEADER.length + 16 + 4 * t)) ∧
      dd.dat = (List.range dd.dat_item_count).map
        (fun t => read_item m (OPENCC_DICHEADER.length + 16 + 4 * dd.lexicon_length + 12 * t))) := by
  by_cases h : m.take OPENCC_DICHEADER.length = OPENCC_DICHEADER
  · refine ⟨by simp [load_dict, h], ?_⟩
    intro dd hdd
    unfold load_dict at hdd
    rw [if_pos h] at hdd
    injection hdd with hdd
    subst hdd
    refine ⟨?_, ?_, ?_, ?_⟩
    · rfl
    · rfl
    · rfl
    · rfl
  · refine ⟨by simp [load_dict, h], ?_⟩
    intro dd hdd
    unfold load_dict at hdd
    rw [if_neg h] at hdd
    exact absurd hdd (by simp)

theorem C6_witness :
    ∃ dd, load_dict m_ex memory_type.MEMORY_TYPE_MMAP = some dd ∧
      dd.lexicon_length = 5 ∧ dd.dat_item_count = 2 ∧
      dd.lexicon.length = 5 ∧ dd.dat.length = 2 ∧ m_ex.length = 28 := by
  obtain ⟨dd, hdd⟩ := Option.isSome_iff_exists.mp
    ((C6_parse_format m_ex memory_type.MEMORY_TYPE_MMAP).1.mpr (by decide))
  have h2 := (C6_parse_format m_ex memory_type.MEMORY_TYPE_MMAP).2 dd hdd
  refine ⟨dd, hdd, h2.1.trans (by decide), h2.2.1.trans (by decide), ?_, ?_, by decide⟩
  · rw [h2.2.2.1, List.length_map, List.length_range, h2.1]
    decide
  · rw [h2.2.2.2, List.length_map, List.length_range, h2.2.1]
    decide

/-- C7: for the same file bytes, a handle loaded by the mapped strategy and a
handle loaded by the fallback heap-copy strategy (both of which acquire
exactly the file's bytes) give identical results for longest match, for its
resolved lexicon entry, and for all-match-length enumeration. -/
theorem C7_memory_strategy_equiv (m : List Nat) (w : List Int) (len : Nat) :
    (load_dict m memory_type.MEMORY_TYPE_MMAP).map
        (fun dd => dict_datrie_match_longest dd w len)
      = (load_dict m memory_type.MEMORY_TYPE_ALLOCATE).map
        (fun dd => dict_datrie_match_longest dd w len) ∧
    (load_dict m memory_type.MEMORY_TYPE_MMAP).map
        (fun dd => (dict_datrie_match_longest dd w len).map (lexicon_entry dd.lexicon))
      = (load_dict m memory_type.MEMORY_TYPE_ALLOCATE).map
        (fun dd => (dict_datrie_match_longest dd w len).map (lexicon_entry dd.lexicon)) ∧
    (load_dict m memory_type.MEMORY_TYPE_MMAP).map
        (fun dd => dict_datrie_get_all_match_lengths dd w)
      = (load_dict m memory_type.MEMORY_TYPE_ALLOCATE).map
        (fun dd => dict_datrie_get_all_match_lengths dd w) := by
  by_cases h : m.take OPENCC_DICHEADER.length = OPENCC_DICHEADER
  · refine ⟨?_, ?_, ?_⟩ <;> (unfold load_dict; rw [if_pos h, if_pos h]; rfl)
  · refine ⟨?_, ?_, ?_⟩ <;> (unfold load_dict; rw [if_neg h, if_neg h])

/-- C8: closing a handle whose region is null is a no-op success; when the
region was mapped and munmap fails, close reports -1; and in every case the
handle's own storage is freed. -/
theorem C8_close_release :
    (∀ (mt : memory_type) (mo : Bool), dict_datrie_close true mt mo = ⟨0, true⟩) ∧
    dict_datrie_close false memory_type.MEMORY_TYPE_MMAP false = ⟨-1, true⟩ ∧
    (∀ (rn : Bool) (mt : memory_type) (mo : Bool),
      (dict_datrie_close rn mt mo).handle_freed = true) := by
  refine ⟨fun mt mo => rfl, rfl, ?_⟩
  intro rn mt mo
  unfold dict_datrie_close
  split <;> rfl

/-- C10: whenever load_dict fails on a present file, open returns the integer
-1 cast to the handle pointer type; no call of open on a present file ever
returns the null pointer, and the failure sentinel differs from null, so a
caller testing the result against null treats a failed open as a valid
handle. -/
theorem C10_failure_returns_minus_one :
    (∀ (m : List Nat) (mo ao : Bool),
      (¬ m.take OPENCC_DICHEADER.length = OPENCC_DICHEADER ∨ (mo = false ∧ ao = false)) →
      dict_datrie_open (some m) mo ao = some (dict_ptr_value.intcast (-1))) ∧
    (∀ (m : List Nat) (mo ao : Bool) (v : dict_ptr_value),
      dict_datrie_open (some m) mo ao = some v → v ≠ NULL_dict_ptr) ∧
    dict_ptr_value.intcast (-1) ≠ NULL_dict_ptr := by
  refine ⟨?_, ?_, by decide⟩
  · intro m mo ao hfail
    rcases hfail with h | ⟨h1, h2⟩
    · cases mo <;> cases ao <;> simp [dict_datrie_open, load_dict, h]
    · subst h1; subst h2
      rfl
  · intro m mo ao v hv hnull
    subst hnull
    cases mo <;> cases ao <;>
      by_cases h : m.take OPENCC_DICHEADER.length = OPENCC_DICHEADER <;>
      simp [dict_datrie_open, load_dict, h, NULL_dict_ptr] at hv

theorem C10_witness :
    dict_datrie_open (some []) true true = some (dict_ptr_value.intcast (-1)) ∧
    dict_ptr_value.intcast (-1) ≠ NULL_dict_ptr :=
  ⟨C10_failure_returns_minus_one.1 [] true true (Or.inl (by decide)),
   C10_failure_returns_minus_one.2.2⟩
